import Mathlib

/-!
Verification of the Beacon Library synchronization engine:
`src/desktop/src/main/sync-service.ts`, `src/desktop/src/main/file-watcher.ts`
and the chunked upload helper of `src/frontend/src/services/files.ts`.

Filesystem paths are embedded as lists of path segments (`path.join` under a
root is list append, `path.relative` under a root drops the root segments),
mirroring Node path algebra on the normalized paths the engine handles.
Timestamps are integer milliseconds.  The worker loop is embedded with
explicit fuel; every theorem about a run supplies enough fuel for the run it
describes.  `pause()` calls arriving at the `await` boundaries of the drain
loop are modelled by a list of booleans, one per loop iteration; the JS loop
body never reads `isPaused`, so a delivered pause only sets the flag.
-/

set_option maxHeartbeats 1000000

namespace Beacon


/-- A filesystem path, as its list of segments. -/
abbrev Path := List String

/-- Status values of a `SyncQueueItem` (sync-service.ts line 24). -/
inductive QStatus where
  | pending
  | syncing
  | error
  | completed
deriving DecidableEq, Repr

instance : BEq QStatus := ⟨fun a b => decide (a = b)⟩

instance : LawfulBEq QStatus where
  eq_of_beq h := by simpa [BEq.beq] using h
  rfl := by simp [BEq.beq]

/-- Event types of a `SyncQueueItem` (sync-service.ts line 21). -/
inductive EvType where
  | add
  | change
  | unlink
deriving DecidableEq, Repr

/-- A `SyncQueueItem` (sync-service.ts lines 18-26); the optional error message field carries no control flow and is omitted. -/
structure QItem where
  id : String
  filePath : Path
  eventType : EvType
  timestamp : Int
  retries : Nat
  status : QStatus
deriving DecidableEq, Repr

/-- The service state read and written by `queueSync`, `processQueue`, `pause` and `resume`. -/
structure WState where
  queue : List QItem
  isPaused : Bool
  isProcessing : Bool
  errorItems : Nat
deriving DecidableEq, Repr

/-- Line 268: `this.queue.find(i => i.status == pending)`. -/
def selectPending (q : List QItem) : Option QItem :=
  q.find? (fun i => i.status == QStatus.pending)

/-- In-place mutation of the item found by `find`, addressed by its unique id. -/
def updateItem (q : List QItem) (id : String) (f : QItem → QItem) : List QItem :=
  q.map (fun i => if i.id == id then f i else i)

abbrev Trace := List (String × QStatus)

/-- Fuel-bounded embedding of the while loop of `processQueue` (sync-service.ts lines 267-295). `dispatch` abstracts `processSyncItem` (true = resolves, false = throws); the emitted trace records every observable status write. -/
def drainLoop (dispatch : QItem → Bool) : Nat → List Bool → WState → WState × Trace
  | 0, _, st => (st, [])
  | fuel + 1, pauses, st =>
    let st := if pauses.headD false then { st with isPaused := true } else st
    if st.queue.isEmpty then (st, [])
    else
      match selectPending st.queue with
      | none => (st, [])
      | some item =>
        let q1 := updateItem st.queue item.id (fun i => { i with status := QStatus.syncing })
        if dispatch item then
          let q2 := (updateItem q1 item.id
              (fun i => { i with status := QStatus.completed })).filter
              (fun i => i.id != item.id)
          let (st', tr) := drainLoop dispatch fuel pauses.tail { st with queue := q2 }
          (st', (item.id, QStatus.syncing) :: (item.id, QStatus.completed) :: tr)
        else
          let r := item.retries + 1
          if 3 ≤ r then
            let q2 := updateItem q1 item.id
              (fun i => { i with status := QStatus.error, retries := r })
            let (st', tr) := drainLoop dispatch fuel pauses.tail
              { st with queue := q2, errorItems := st.errorItems + 1 }
            (st', (item.id, QStatus.syncing) :: (item.id, QStatus.error) :: tr)
          else
            let q2 := updateItem q1 item.id
              (fun i => { i with status := QStatus.pending, retries := r })
            let (st', tr) := drainLoop dispatch fuel pauses.tail { st with queue := q2 }
            (st', (item.id, QStatus.syncing) :: (item.id, QStatus.pending) :: tr)

/-- Fuel bounding the iteration count: a pending item with `r` retries is attempted at most `3 - r` more times, plus one iteration to observe that nothing is pending. -/
def drainFuel (q : List QItem) : Nat :=
  q.foldl (fun a i => a + (if i.status = QStatus.pending then 4 - min i.retries 3 else 0)) 1

/-- The entry guard `if (this.isProcessing or this.status.isPaused) return` of `processQueue` (lines 260-263), followed by the drain loop. -/
def processQueue (dispatch : QItem → Bool) (pauses : List Bool) (st : WState) :
    WState × Trace :=
  if st.isProcessing || st.isPaused then (st, [])
  else
    let res := drainLoop dispatch (drainFuel st.queue) pauses
      { st with isProcessing := true }
    ({ res.1 with isProcessing := false }, res.2)

/-- `pause()` (sync-service.ts lines 374-376): it only sets the flag. -/
def pauseService (st : WState) : WState := { st with isPaused := true }

/-- The queue mutation of `queueSync` (lines 240-258): a fresh pending item with zero retries is pushed at the tail; its id is built from `Date.now()` and a random suffix. -/
def queueSyncPush (st : WState) (fp : Path) (ev : EvType) (now : Int) (rnd : String) : WState :=
  { st with queue := st.queue ++ [⟨toString now ++ "-" ++ rnd, fp, ev, now, 0, QStatus.pending⟩] }

/-- Conflict type values (sync-service.ts line 34). -/
inductive CType where
  | both_modified
  | deleted_modified
  | modified_deleted
deriving DecidableEq, Repr

/-- A remote listing entry as `syncFiles` consumes it: id, path and `updated_at` in milliseconds. -/
structure RemoteFile where
  id : String
  path : Path
  updated_at : Int
deriving DecidableEq, Repr

/-- A `Conflict` record (sync-service.ts lines 28-35). -/
structure Conflict where
  id : String
  localPath : Path
  remotePath : Path
  localModified : Int
  remoteModified : Int
  type : CType
deriving DecidableEq, Repr

/-- The local file snapshot of `getLocalFiles`: path to `mtimeMs`. -/
abbrev Snapshot := List (Path × Int)

/-- The `path.join(libraryPath, remoteFile.path)` of line 132, on segment paths. -/
def joinPath (root : Path) (p : Path) : Path := root ++ p

/-- The `path.relative(libraryPath, localPath)` of line 161, on segment paths under the root. -/
def relPath (root : Path) (p : Path) : Path := p.drop root.length

/-- The `localFiles.get(localPath)` of line 133. -/
def lookupMtime (l : Snapshot) (p : Path) : Option Int :=
  (l.find? (fun e => e.1 == p)).map (fun e => e.2)

/-- The `localFiles.delete(localPath)` of line 156. -/
def eraseKey (l : Snapshot) (p : Path) : Snapshot :=
  l.filter (fun e => e.1 != p)

/-- The conflict id template of line 146. -/
def mkConflictId (libId fid : String) : String := libId ++ "-" ++ fid

/-- The state threaded through the first loop of `syncFiles`: the working copy of the local map, the conflict store, the conflicts newly pushed during this pass, and the downloads performed. -/
structure SyncAcc where
  locals : Snapshot
  store : List Conflict
  added : List Conflict
  downloads : List (String × Path)
deriving DecidableEq, Repr

/-- The conflict record built at lines 145-152. -/
def mkBothConflict (libId : String) (lp : Path) (r : RemoteFile) (l : Int) : Conflict :=
  ⟨mkConflictId libId r.id, joinPath lp r.path, r.path, l, r.updated_at, CType.both_modified⟩

/-- One iteration of the remote-files loop of `syncFiles` (lines 131-157): download when absent locally, push a `both_modified` conflict when `Math.abs(remoteModified - localModified) > 1000` (deduplicated by id, as `addConflict` at lines 325-330 does), then delete the entry from the working map. -/
def syncStep (libId : String) (lp : Path) (acc : SyncAcc) (r : RemoteFile) : SyncAcc :=
  let localPath := joinPath lp r.path
  match lookupMtime acc.locals localPath with
  | none =>
      { acc with downloads := acc.downloads ++ [(r.id, localPath)],
                 locals := eraseKey acc.locals localPath }
  | some l =>
      if 1000 < (r.updated_at - l).natAbs then
        let c := mkBothConflict libId lp r l
        if acc.store.any (fun x => x.id == c.id) then
          { acc with locals := eraseKey acc.locals localPath }
        else
          { acc with store := acc.store ++ [c], added := acc.added ++ [c],
                     locals := eraseKey acc.locals localPath }
      else
        { acc with locals := eraseKey acc.locals localPath }

/-- The whole of `syncFiles` (lines 124-164): the first loop over remote files, then the upload of every local path left in the working map. -/
def syncFilesModel (libId : String) (lp : Path) (remote : List RemoteFile)
    (locals : Snapshot) (store : List Conflict) : SyncAcc × List Path :=
  let acc := remote.foldl (syncStep libId lp) ⟨locals, store, [], []⟩
  (acc, acc.locals.map (fun e => e.1))

/-- A library state for reconciliation passes: local tree, remote listing, persisted conflict store. -/
structure World where
  locals : Snapshot
  remote : List RemoteFile
  store : List Conflict
deriving DecidableEq, Repr

/-- The observable effects of one reconciliation pass. -/
structure PassResult where
  world : World
  downloads : List (String × Path)
  uploads : List Path
  added : List Conflict
deriving DecidableEq, Repr

/-- One reconciliation pass over a `World` (`syncLibrary` plus `syncFiles`, lines 102-164) together with its filesystem and server effects: a download writes the file with mtime equal to the pass time `tNow` (`fs.writeFileSync` at line 182 leaves a fresh mtime), and an upload creates a remote entry at the relative path, whose `updated_at` the server assigns (`tServer`). -/
def runPass (libId : String) (lp : Path) (tNow tServer : Int) (upId : Path → String)
    (w : World) : PassResult :=
  let res := syncFilesModel libId lp w.remote w.locals w.store
  { world := { locals := w.locals ++ res.1.downloads.map (fun d => (d.2, tNow)),
               remote := w.remote ++ res.2.map (fun p => ⟨upId p, relPath lp p, tServer⟩),
               store := res.1.store },
    downloads := res.1.downloads
    uploads := res.2
    added := res.1.added }

/-- Runtime errors a resolution can throw: the temporal-dead-zone ReferenceError on `parts`, or a filesystem error. -/
inductive JsError where
  | referenceError (name : String)
  | fsError
deriving DecidableEq, Repr

/-- The state touched by `resolveConflict`: the conflict store, the local files with their contents, and the log of uploads sent to the server. -/
structure RState where
  conflicts : List Conflict
  fs : List (Path × String)
  uploads : List (String × Path × String)
deriving DecidableEq, Repr

/-- Reading a local file (`fs.readFileSync`). -/
def lookupFs (fs : List (Path × String)) (p : Path) : Option String :=
  (fs.find? (fun e => e.1 == p)).map (fun e => e.2)

/-- Removing a path from the local tree (the source half of `fs.renameSync`). -/
def eraseFs (fs : List (Path × String)) (p : Path) : List (Path × String) :=
  fs.filter (fun e => e.1 != p)

/-- Node `path.extname` on a basename: the suffix from the last dot, empty when there is no dot or the dot is the leading character. -/
def jsExtname (name : String) : String :=
  let cs := name.data
  let dots := (List.range cs.length).filter (fun i => cs.get? i == some ('.' : Char))
  match dots.getLast? with
  | none => ""
  | some 0 => ""
  | some i => ⟨cs.drop i⟩

/-- The rename target of the `keep_both` branch (lines 348-350): base, then `_local_`, then `Date.now()`, then the extension, where base is `localPath.slice(0, -ext.length)`; when the extension is empty, JS `slice(0, -0)` yields the empty string, so the target degenerates to the bare relative name `_local_<now>`. -/
def keepBothNewLocal (p : Path) (now : Int) : Path :=
  let name := (p.getLast?).getD ""
  let ext := jsExtname name
  if ext.length = 0 then
    ["_local_" ++ toString now]
  else
    p.dropLast ++ [name.dropRight ext.length ++ "_local_" ++ toString now ++ ext]

/-- `resolveConflict` (sync-service.ts lines 332-358). `const parts` is declared only inside the `keep_local` case of the switch; the `keep_remote` and `keep_both` cases read `parts` while it is still in the temporal dead zone, so at runtime they throw a ReferenceError - `keep_both` after `fs.renameSync` has already moved the local file. A thrown error propagates before the line that filters the conflict out of the store, so the record survives. -/
def resolveConflict (remote : String → String) (st : RState)
    (conflictId resolution : String) (now : Int) : RState × Option JsError :=
  match st.conflicts.find? (fun c => c.id == conflictId) with
  | none => (st, none)
  | some conflict =>
    match resolution with
    | "keep_local" =>
      let parts := conflictId.splitOn "-"
      match lookupFs st.fs conflict.localPath with
      | none => (st, some JsError.fsError)
      | some content =>
        ({ st with uploads := st.uploads ++ [(parts.headD "", conflict.remotePath, content)],
                   conflicts := st.conflicts.filter (fun c => c.id != conflictId) }, none)
    | "keep_remote" => (st, some (JsError.referenceError "parts"))
    | "keep_both" =>
      match lookupFs st.fs conflict.localPath with
      | none => (st, some JsError.fsError)
      | some content =>
        ({ st with fs := eraseFs st.fs conflict.localPath ++
            [(keepBothNewLocal conflict.localPath now, content)] },
         some (JsError.referenceError "parts"))
    | _ => ({ st with conflicts := st.conflicts.filter (fun c => c.id != conflictId) }, none)

/-- A local directory tree. -/
inductive FsEntry where
  | file (name : String) (mtime : Int)
  | dir (name : String) (children : List FsEntry)

-- The recursive walk of `getLocalFiles` (sync-service.ts lines 218-238): every
-- directory is descended into and every file is recorded with its mtime;
-- no entry is filtered.
mutual

def walkEntry (cwd : Path) : FsEntry → List (Path × Int)
  | FsEntry.file n m => [(cwd ++ [n], m)]
  | FsEntry.dir n cs => walkEntries (cwd ++ [n]) cs

def walkEntries (cwd : Path) : List FsEntry → List (Path × Int)
  | [] => []
  | e :: es => walkEntry cwd e ++ walkEntries cwd es

end

/-- The watcher ignore globs (file-watcher.ts lines 16-25); they configure chokidar only and are never consulted by `getLocalFiles`. -/
def ignorePatterns : List String :=
  ["**/node_modules/**", "**/.git/**", "**/.DS_Store", "**/Thumbs.db",
   "**/*.tmp", "**/*.temp", "**/*~", "**/.beacon-sync/**"]

/-- Matching one glob segment: a leading star matches any suffix, otherwise the segment must be equal. -/
def segMatches (pat seg : String) : Bool :=
  match pat.data with
  | '*' :: rest => rest.isSuffixOf seg.data
  | _ => pat == seg

/-- The two glob shapes the watcher uses: a pattern of shape star-star slash X matches a path whose final segment matches X; with a trailing star-star it matches a path with a non-final segment matching X. -/
def matchesGlob (pat : String) (p : Path) : Bool :=
  match (pat.data.splitOn '/').map (fun cs => String.mk cs) with
  | ["**", x] =>
    match p.getLast? with
    | some lastSeg => segMatches x lastSeg
    | none => false
  | ["**", x, "**"] => p.dropLast.any (fun seg => segMatches x seg)
  | _ => false

/-- Whether a path matches some watcher ignore pattern. -/
def isIgnored (p : Path) : Bool := ignorePatterns.any (fun pat => matchesGlob pat p)

/-- Modelled from the spec: the upload-init endpoint that computes `total_chunks` is server code absent from the repository snapshot; per the spec data model and chunk-math property, `totalChunks` is the ceiling of `sizeBytes / chunkSize`. -/
def totalChunksSpec (sizeBytes chunkSize : Nat) : Nat := (sizeBytes + chunkSize - 1) / chunkSize

/-- The chunk loop of `uploadFile` (files.ts lines 463-484): for `i` below `total_chunks`, part number `i + 1`, byte range from `i * chunk_size` to the minimum of start plus `chunk_size` and `file.size`. -/
def uploadChunks (s c : Nat) : List (Nat × Nat × Nat) :=
  (List.range (totalChunksSpec s c)).map (fun i => (i + 1, i * c, min (i * c + c) s))
theorem selectPending_singleton_pending (x : QItem) (hx : x.status = QStatus.pending) :
    selectPending [x] = some x := by
  simp [selectPending, List.find?, hx]

theorem selectPending_singleton_not (x : QItem) (hx : x.status ≠ QStatus.pending) :
    selectPending [x] = none := by
  have : (x.status == QStatus.pending) = false := by
    simpa using hx
  simp [selectPending, List.find?, this]

theorem updateItem_singleton (x : QItem) (f : QItem → QItem) :
    updateItem [x] x.id f = [f x] := by
  simp [updateItem]

theorem updateItem_singleton_fields (i : String) (f : Path) (ev : EvType) (ts : Int)
    (r : Nat) (st : QStatus) (g : QItem → QItem) :
    updateItem [⟨i, f, ev, ts, r, st⟩] i g = [g ⟨i, f, ev, ts, r, st⟩] := by
  simp [updateItem]

theorem drainLoop_fail_retry (d : QItem → Bool) (fuel : Nat) (i : String) (f : Path)
    (ev : EvType) (ts : Int) (r : Nat)
    (hd : d ⟨i, f, ev, ts, r, QStatus.pending⟩ = false) (hr : r + 1 < 3)
    (p pr : Bool) (e : Nat) :
    drainLoop d (fuel + 1) [] ⟨[⟨i, f, ev, ts, r, QStatus.pending⟩], p, pr, e⟩ =
      ((drainLoop d fuel [] ⟨[⟨i, f, ev, ts, r + 1, QStatus.pending⟩], p, pr, e⟩).1,
       (i, QStatus.syncing) :: (i, QStatus.pending) ::
        (drainLoop d fuel [] ⟨[⟨i, f, ev, ts, r + 1, QStatus.pending⟩], p, pr, e⟩).2) := by
  rw [drainLoop]
  simp only [List.headD, Bool.false_eq_true, if_false, List.isEmpty, List.tail,
    selectPending_singleton_pending ⟨i, f, ev, ts, r, QStatus.pending⟩ rfl,
    updateItem_singleton_fields, hd]
  have h3 : ¬ (3 ≤ r + 1) := by omega
  simp [h3]

theorem drainLoop_fail_error (d : QItem → Bool) (fuel : Nat) (i : String) (f : Path)
    (ev : EvType) (ts : Int) (r : Nat)
    (hd : d ⟨i, f, ev, ts, r, QStatus.pending⟩ = false) (hr : 3 ≤ r + 1)
    (p pr : Bool) (e : Nat) :
    drainLoop d (fuel + 1) [] ⟨[⟨i, f, ev, ts, r, QStatus.pending⟩], p, pr, e⟩ =
      ((drainLoop d fuel [] ⟨[⟨i, f, ev, ts, r + 1, QStatus.error⟩], p, pr, e + 1⟩).1,
       (i, QStatus.syncing) :: (i, QStatus.error) ::
        (drainLoop d fuel [] ⟨[⟨i, f, ev, ts, r + 1, QStatus.error⟩], p, pr, e + 1⟩).2) := by
  rw [drainLoop]
  simp only [List.headD, Bool.false_eq_true, if_false, List.isEmpty, List.tail,
    selectPending_singleton_pending ⟨i, f, ev, ts, r, QStatus.pending⟩ rfl,
    updateItem_singleton_fields, hd]
  simp [hr]

theorem drainLoop_stuck (d : QItem → Bool) (fuel : Nat) (x : QItem)
    (hx : x.status ≠ QStatus.pending) (p pr : Bool) (e : Nat) :
    drainLoop d (fuel + 1) [] ⟨[x], p, pr, e⟩ = (⟨[x], p, pr, e⟩, []) := by
  rw [drainLoop]
  simp [List.headD, List.isEmpty, selectPending_singleton_not x hx]

theorem lookupMtime_eraseKey_ne (l : Snapshot) (p q : Path) (h : q ≠ p) :
    lookupMtime (eraseKey l p) q = lookupMtime l q := by
  induction l with
  | nil => rfl
  | cons e t ih =>
    by_cases he : e.1 = p
    · have h1 : (e.1 != p) = false := by simp [he]
      have h2 : (e.1 == q) = false := by simp [he]; exact fun hq => h (hq ▸ he ▸ rfl)
      simp [eraseKey, lookupMtime, List.filter, h1, List.find?, h2] at *
      exact ih
    · have h1 : (e.1 != p) = true := by simp [he]
      by_cases hq : e.1 = q
      · subst hq
        simp [eraseKey, lookupMtime, List.filter, h1, List.find?]
      · have h2 : (e.1 == q) = false := by simp [hq]
        simp [eraseKey, lookupMtime, List.filter, h1, List.find?, h2] at *
        exact ih

theorem keys_eraseKey_sub (l : Snapshot) (p q : Path) :
    q ∈ (eraseKey l p).map (fun e => e.1) → q ∈ l.map (fun e => e.1) := by
  intro h
  obtain ⟨e, he, rfl⟩ := List.mem_map.1 h
  exact List.mem_map.2 ⟨e, List.mem_of_mem_filter he, rfl⟩

theorem notMem_keys_eraseKey (l : Snapshot) (p : Path) :
    p ∉ (eraseKey l p).map (fun e => e.1) := by
  intro h
  obtain ⟨e, he, hfst⟩ := List.mem_map.1 h
  have := List.of_mem_filter he
  simp [hfst] at this

theorem syncStep_none (libId : String) (lp : Path) (acc : SyncAcc) (r : RemoteFile)
    (h : lookupMtime acc.locals (joinPath lp r.path) = none) :
    syncStep libId lp acc r =
      { acc with downloads := acc.downloads ++ [(r.id, joinPath lp r.path)],
                 locals := eraseKey acc.locals (joinPath lp r.path) } := by
  simp only [syncStep, h]

theorem syncStep_some (libId : String) (lp : Path) (acc : SyncAcc) (r : RemoteFile) (l : Int)
    (h : lookupMtime acc.locals (joinPath lp r.path) = some l) :
    syncStep libId lp acc r =
      (if 1000 < (r.updated_at - l).natAbs then
        (if acc.store.any (fun x => x.id == (mkBothConflict libId lp r l).id) then
          { acc with locals := eraseKey acc.locals (joinPath lp r.path) }
        else
          { acc with store := acc.store ++ [mkBothConflict libId lp r l],
                     added := acc.added ++ [mkBothConflict libId lp r l],
                     locals := eraseKey acc.locals (joinPath lp r.path) })
      else
        { acc with locals := eraseKey acc.locals (joinPath lp r.path) }) := by
  simp only [syncStep, h]

theorem syncStep_locals_cases (libId : String) (lp : Path) (acc : SyncAcc) (r : RemoteFile) :
    (syncStep libId lp acc r).locals = eraseKey acc.locals (joinPath lp r.path) := by
  cases h : lookupMtime acc.locals (joinPath lp r.path) with
  | none => rw [syncStep_none libId lp acc r h]
  | some l =>
    rw [syncStep_some libId lp acc r l h]
    split
    · split <;> rfl
    · rfl

theorem syncStep_downloads_sub (libId : String) (lp : Path) (acc : SyncAcc) (r : RemoteFile)
    (d : String × Path) (hd : d ∈ (syncStep libId lp acc r).downloads) :
    d ∈ acc.downloads ∨ d.2 = joinPath lp r.path := by
  cases h : lookupMtime acc.locals (joinPath lp r.path) with
  | none =>
    rw [syncStep_none libId lp acc r h] at hd
    simp at hd
    rcases hd with hd | hd
    · exact Or.inl hd
    · right; rw [hd]
  | some l =>
    rw [syncStep_some libId lp acc r l h] at hd
    split at hd
    · split at hd <;> exact Or.inl hd
    · exact Or.inl hd

theorem syncStep_added_sub (libId : String) (lp : Path) (acc : SyncAcc) (r : RemoteFile)
    (c : Conflict) (hc : c ∈ (syncStep libId lp acc r).added) :
    c ∈ acc.added ∨ c.localPath = joinPath lp r.path := by
  cases h : lookupMtime acc.locals (joinPath lp r.path) with
  | none =>
    rw [syncStep_none libId lp acc r h] at hc
    exact Or.inl hc
  | some l =>
    rw [syncStep_some libId lp acc r l h] at hc
    split at hc
    · split at hc
      · exact Or.inl hc
      · simp at hc
        rcases hc with hc | hc
        · exact Or.inl hc
        · right; rw [hc]; rfl
    · exact Or.inl hc

theorem syncStep_store_sub (libId : String) (lp : Path) (acc : SyncAcc) (r : RemoteFile)
    (c : Conflict) (hc : c ∈ (syncStep libId lp acc r).store) :
    c ∈ acc.store ∨ c.id = mkConflictId libId r.id := by
  cases h : lookupMtime acc.locals (joinPath lp r.path) with
  | none =>
    rw [syncStep_none libId lp acc r h] at hc
    exact Or.inl hc
  | some l =>
    rw [syncStep_some libId lp acc r l h] at hc
    split at hc
    · split at hc
      · exact Or.inl hc
      · simp at hc
        rcases hc with hc | hc
        · exact Or.inl hc
        · right; rw [hc]; rfl
    · exact Or.inl hc

theorem syncStep_added_mono (libId : String) (lp : Path) (acc : SyncAcc) (r : RemoteFile)
    (c : Conflict) (hc : c ∈ acc.added) : c ∈ (syncStep libId lp acc r).added := by
  cases h : lookupMtime acc.locals (joinPath lp r.path) with
  | none => rw [syncStep_none libId lp acc r h]; exact hc
  | some l =>
    rw [syncStep_some libId lp acc r l h]
    split
    · split
      · exact hc
      · simp
        exact Or.inl hc
    · exact hc

theorem foldl_other_entries (libId : String) (lp : Path) (p : Path) (cid : String)
    (l : List RemoteFile) (a : SyncAcc)
    (hpth : ∀ x ∈ l, joinPath lp x.path ≠ p)
    (hid : ∀ x ∈ l, mkConflictId libId x.id ≠ cid) :
    lookupMtime (l.foldl (syncStep libId lp) a).locals p = lookupMtime a.locals p
    ∧ (∀ d ∈ (l.foldl (syncStep libId lp) a).downloads, d ∈ a.downloads ∨ d.2 ≠ p)
    ∧ (∀ c ∈ (l.foldl (syncStep libId lp) a).added, c ∈ a.added ∨ c.localPath ≠ p)
    ∧ (∀ c ∈ (l.foldl (syncStep libId lp) a).store, c ∈ a.store ∨ c.id ≠ cid) := by
  induction l generalizing a with
  | nil => exact ⟨rfl, fun d hd => Or.inl hd, fun c hc => Or.inl hc, fun c hc => Or.inl hc⟩
  | cons x t ih =>
    have hxp : joinPath lp x.path ≠ p := hpth x (by simp)
    have hxi : mkConflictId libId x.id ≠ cid := hid x (by simp)
    have ht1 : ∀ y ∈ t, joinPath lp y.path ≠ p := fun y hy => hpth y (by simp [hy])
    have ht2 : ∀ y ∈ t, mkConflictId libId y.id ≠ cid := fun y hy => hid y (by simp [hy])
    obtain ⟨i1, i2, i3, i4⟩ := ih (syncStep libId lp a x) ht1 ht2
    rw [List.foldl_cons]
    refine ⟨?_, ?_, ?_, ?_⟩
    · rw [i1, syncStep_locals_cases, lookupMtime_eraseKey_ne _ _ _ (Ne.symm hxp)]
    · intro d hd
      rcases i2 d hd with hd2 | hd2
      · rcases syncStep_downloads_sub libId lp a x d hd2 with h3 | h3
        · exact Or.inl h3
        · exact Or.inr (h3 ▸ hxp)
      · exact Or.inr hd2
    · intro c hc
      rcases i3 c hc with hc2 | hc2
      · rcases syncStep_added_sub libId lp a x c hc2 with h3 | h3
        · exact Or.inl h3
        · exact Or.inr (h3 ▸ hxp)
      · exact Or.inr hc2
    · intro c hc
      rcases i4 c hc with hc2 | hc2
      · rcases syncStep_store_sub libId lp a x c hc2 with h3 | h3
        · exact Or.inl h3
        · exact Or.inr (h3 ▸ hxi)
      · exact Or.inr hc2

theorem foldl_added_mono (libId : String) (lp : Path) (l : List RemoteFile) (a : SyncAcc)
    (c : Conflict) (hc : c ∈ a.added) : c ∈ (l.foldl (syncStep libId lp) a).added := by
  induction l generalizing a with
  | nil => exact hc
  | cons x t ih =>
    rw [List.foldl_cons]
    exact ih _ (syncStep_added_mono libId lp a x c hc)

theorem foldl_keys_absent (libId : String) (lp : Path) (p : Path) (l : List RemoteFile)
    (a : SyncAcc) (h : p ∉ a.locals.map (fun e => e.1)) :
    p ∉ (l.foldl (syncStep libId lp) a).locals.map (fun e => e.1) := by
  induction l generalizing a with
  | nil => exact h
  | cons x t ih =>
    rw [List.foldl_cons]
    refine ih _ (fun hmem => h ?_)
    rw [syncStep_locals_cases] at hmem
    exact keys_eraseKey_sub _ _ _ hmem

theorem nodup_middle_ne {α β : Type _} (f : α → β) (pre post : List α) (a : α)
    (h : ((pre ++ a :: post).map f).Nodup) :
    (∀ x ∈ pre, f x ≠ f a) ∧ (∀ x ∈ post, f x ≠ f a) := by
  rw [List.map_append, List.map_cons, List.nodup_append] at h
  obtain ⟨h1, h2, h3⟩ := h
  constructor
  · intro x hx he
    exact h3 (List.mem_map_of_mem f hx) (by simp [he])
  · intro x hx he
    rw [List.nodup_cons] at h2
    exact h2.1 (he ▸ List.mem_map_of_mem f hx)

theorem joinPath_relPath (lp rel : Path) : joinPath lp (relPath lp (lp ++ rel)) = lp ++ rel := by
  simp [joinPath, relPath, List.drop_left]

theorem mem_keys_iff_lookup (l : Snapshot) (p : Path) :
    p ∈ l.map (fun e => e.1) ↔ ∃ v, lookupMtime l p = some v := by
  induction l with
  | nil => simp [lookupMtime]
  | cons e t ih =>
    by_cases he : e.1 = p
    · subst he
      simp [lookupMtime, List.find?]
    · have h2 : (e.1 == p) = false := by simp [he]
      have hl : lookupMtime (e :: t) p = lookupMtime t p := by
        simp [lookupMtime, List.find?, h2]
      rw [List.map_cons, List.mem_cons, hl, ← ih]
      exact or_iff_right (fun h => he h.symm)

theorem mem_keys_eraseKey_ne (l : Snapshot) (p q : Path) (h : q ≠ p) :
    q ∈ (eraseKey l p).map (fun e => e.1) ↔ q ∈ l.map (fun e => e.1) := by
  rw [mem_keys_iff_lookup, mem_keys_iff_lookup, lookupMtime_eraseKey_ne l p q h]

theorem foldl_downloads_mono (libId : String) (lp : Path) (l : List RemoteFile) (a : SyncAcc)
    (d : String × Path) (hd : d ∈ a.downloads) : d ∈ (l.foldl (syncStep libId lp) a).downloads := by
  induction l generalizing a with
  | nil => exact hd
  | cons x t ih =>
    rw [List.foldl_cons]
    refine ih _ ?_
    cases h : lookupMtime a.locals (joinPath lp x.path) with
    | none => rw [syncStep_none libId lp a x h]; simp; exact Or.inl hd
    | some v =>
      rw [syncStep_some libId lp a x v h]
      split
      · split <;> exact hd
      · exact hd

theorem foldl_locals_sublist (libId : String) (lp : Path) (l : List RemoteFile) (a : SyncAcc) :
    (l.foldl (syncStep libId lp) a).locals.Sublist a.locals := by
  induction l generalizing a with
  | nil => exact List.Sublist.refl _
  | cons x t ih =>
    rw [List.foldl_cons]
    refine (ih _).trans ?_
    rw [syncStep_locals_cases]
    exact List.filter_sublist _

theorem foldl_entry_covered (libId : String) (lp : Path) (l : List RemoteFile) (a : SyncAcc)
    (x : RemoteFile) (hx : x ∈ l) :
    joinPath lp x.path ∈ a.locals.map (fun e => e.1) ∨
      joinPath lp x.path ∈ (l.foldl (syncStep libId lp) a).downloads.map (fun d => d.2) := by
  induction l generalizing a with
  | nil => cases hx
  | cons y t ih =>
    rw [List.foldl_cons]
    rcases List.mem_cons.1 hx with rfl | hx2
    · cases h : lookupMtime a.locals (joinPath lp x.path) with
      | none =>
        right
        refine List.mem_map.2 ⟨(x.id, joinPath lp x.path), ?_, rfl⟩
        refine foldl_downloads_mono libId lp t _ _ ?_
        rw [syncStep_none libId lp a x h]
        simp
      | some v =>
        left
        exact (mem_keys_iff_lookup _ _).2 ⟨v, h⟩
    · rcases ih (syncStep libId lp a y) hx2 with h | h
      · rw [syncStep_locals_cases] at h
        exact Or.inl (keys_eraseKey_sub _ _ _ h)
      · exact Or.inr h

theorem foldl_downloads_from (libId : String) (lp : Path) (l : List RemoteFile) (a : SyncAcc)
    (d : String × Path) (hd : d ∈ (l.foldl (syncStep libId lp) a).downloads) :
    d ∈ a.downloads ∨ ∃ x ∈ l, d.2 = joinPath lp x.path := by
  induction l generalizing a with
  | nil => exact Or.inl hd
  | cons y t ih =>
    rw [List.foldl_cons] at hd
    rcases ih _ hd with h | h
    · rcases syncStep_downloads_sub libId lp a y d h with h2 | h2
      · exact Or.inl h2
      · exact Or.inr ⟨y, by simp, h2⟩
    · obtain ⟨x, hx, he⟩ := h
      exact Or.inr ⟨x, by simp [hx], he⟩

theorem foldl_key_preserved (libId : String) (lp : Path) (l : List RemoteFile) (a : SyncAcc)
    (q : Path) (hq : ∀ x ∈ l, joinPath lp x.path ≠ q)
    (hmem : q ∈ a.locals.map (fun e => e.1)) :
    q ∈ (l.foldl (syncStep libId lp) a).locals.map (fun e => e.1) := by
  induction l generalizing a with
  | nil => exact hmem
  | cons x t ih =>
    rw [List.foldl_cons]
    refine ih _ (fun y hy => hq y (by simp [hy])) ?_
    rw [syncStep_locals_cases]
    exact (mem_keys_eraseKey_ne _ _ _ (fun h => hq x (by simp) h.symm)).2 hmem

theorem foldl_processed_gone (libId : String) (lp : Path) (l : List RemoteFile) (a : SyncAcc)
    (x : RemoteFile) (hx : x ∈ l) :
    joinPath lp x.path ∉ (l.foldl (syncStep libId lp) a).locals.map (fun e => e.1) := by
  induction l generalizing a with
  | nil => cases hx
  | cons y t ih =>
    rw [List.foldl_cons]
    rcases List.mem_cons.1 hx with rfl | hx2
    · refine foldl_keys_absent libId lp _ t _ ?_
      rw [syncStep_locals_cases]
      exact notMem_keys_eraseKey _ _
    · exact ih _ hx2

theorem syncStep_some_shape (libId : String) (lp : Path) (acc : SyncAcc) (r : RemoteFile)
    (v : Int) (h : lookupMtime acc.locals (joinPath lp r.path) = some v) :
    ∃ S A, syncStep libId lp acc r =
      ⟨eraseKey acc.locals (joinPath lp r.path), S, A, acc.downloads⟩ := by
  rw [syncStep_some libId lp acc r v h]
  split
  · split
    · exact ⟨acc.store, acc.added, rfl⟩
    · exact ⟨acc.store ++ [mkBothConflict libId lp r v], acc.added ++ [mkBothConflict libId lp r v], rfl⟩
  · exact ⟨acc.store, acc.added, rfl⟩

theorem foldl_no_downloads (libId : String) (lp : Path) (l : List RemoteFile) (a : SyncAcc)
    (hpresent : ∀ x ∈ l, joinPath lp x.path ∈ a.locals.map (fun e => e.1))
    (hnd : (l.map (fun x => joinPath lp x.path)).Nodup) :
    (l.foldl (syncStep libId lp) a).downloads = a.downloads := by
  induction l generalizing a with
  | nil => rfl
  | cons x t ih =>
    obtain ⟨v, hv⟩ := (mem_keys_iff_lookup _ _).1 (hpresent x (by simp))
    obtain ⟨S, A, hshape⟩ := syncStep_some_shape libId lp a x v hv
    rw [List.map_cons, List.nodup_cons] at hnd
    have hne : ∀ y ∈ t, joinPath lp y.path ≠ joinPath lp x.path := by
      intro y hy he
      exact hnd.1 (he ▸ List.mem_map_of_mem _ hy)
    rw [List.foldl_cons, hshape]
    have : ∀ y ∈ t, joinPath lp y.path ∈
        (eraseKey a.locals (joinPath lp x.path)).map (fun e => e.1) := by
      intro y hy
      exact (mem_keys_eraseKey_ne _ _ _ (hne y hy)).2 (hpresent y (by simp [hy]))
    exact ih ⟨eraseKey a.locals (joinPath lp x.path), S, A, a.downloads⟩ this hnd.2

theorem foldl_locals_consumed (libId : String) (lp : Path) (l : List RemoteFile) (a : SyncAcc)
    (hcov : ∀ q ∈ a.locals.map (fun e => e.1), ∃ x ∈ l, joinPath lp x.path = q) :
    (l.foldl (syncStep libId lp) a).locals = [] := by
  induction l generalizing a with
  | nil =>
    cases hl : a.locals with
    | nil => exact hl
    | cons e t =>
      obtain ⟨x, hx, _⟩ := hcov e.1 (by rw [hl]; simp)
      cases hx
  | cons x t ih =>
    rw [List.foldl_cons]
    refine ih _ ?_
    intro q hq
    rw [syncStep_locals_cases] at hq
    have hqa : q ∈ a.locals.map (fun e => e.1) := keys_eraseKey_sub _ _ _ hq
    have hqne : q ≠ joinPath lp x.path := by
      intro he
      exact notMem_keys_eraseKey a.locals (joinPath lp x.path) (he ▸ hq)
    obtain ⟨y, hy, hye⟩ := hcov q hqa
    rcases List.mem_cons.1 hy with rfl | hy2
    · exact absurd hye.symm hqne
    · exact ⟨y, hy2, hye⟩

/-- C1: a queue item whose dispatch fails on every attempt is drained pending to syncing to pending exactly twice (retries incremented each time) and on the third failed attempt is marked error with retries 3; it stays in the queue and the aggregate errorItems counter increases by exactly 1. -/
theorem queue_retry_bound (id : String) (fp : Path) (ev : EvType) (ts : Int) (e : Nat) :
    processQueue (fun _ => false) []
      { queue := [{ id := id, filePath := fp, eventType := ev, timestamp := ts,
                    retries := 0, status := QStatus.pending }],
        isPaused := false, isProcessing := false, errorItems := e } =
    ({ queue := [{ id := id, filePath := fp, eventType := ev, timestamp := ts,
                   retries := 3, status := QStatus.error }],
       isPaused := false, isProcessing := false, errorItems := e + 1 },
     [(id, QStatus.syncing), (id, QStatus.pending),
      (id, QStatus.syncing), (id, QStatus.pending),
      (id, QStatus.syncing), (id, QStatus.error)]) := by
  have h5 : drainFuel [⟨id, fp, ev, ts, 0, QStatus.pending⟩] = 5 := by
    simp [drainFuel]
  rw [processQueue]
  rw [if_neg (by simp)]
  rw [h5, show (5 : Nat) = 4 + 1 from rfl,
    drainLoop_fail_retry _ 4 id fp ev ts 0 rfl (by omega),
    show (4 : Nat) = 3 + 1 from rfl,
    drainLoop_fail_retry _ 3 id fp ev ts 1 rfl (by omega),
    show (3 : Nat) = 2 + 1 from rfl,
    drainLoop_fail_error _ 2 id fp ev ts 2 rfl (by omega),
    show (2 : Nat) = 1 + 1 from rfl,
    drainLoop_stuck _ 1 _ (by simp)]

/-- C2: for a file present both locally (mtime L) and remotely (updated_at R) in a pass over a listing with distinct paths and conflict ids and a store not already holding the conflict id, a both_modified conflict is recorded if and only if the absolute difference of R and L exceeds 1000 ms (so none at exactly 1000), and beyond the tolerance the file is neither downloaded nor uploaded. -/
theorem conflict_threshold
    (libId : String) (lp : Path) (rs : List RemoteFile) (locals : Snapshot)
    (store : List Conflict) (r : RemoteFile) (l : Int)
    (hr : r ∈ rs)
    (hl : lookupMtime locals (joinPath lp r.path) = some l)
    (hpaths : (rs.map (fun x => joinPath lp x.path)).Nodup)
    (hids : (rs.map (fun x => mkConflictId libId x.id)).Nodup)
    (hstore : ∀ c ∈ store, c.id ≠ mkConflictId libId r.id) :
    ((mkBothConflict libId lp r l ∈ (syncFilesModel libId lp rs locals store).1.added)
        ↔ 1000 < (r.updated_at - l).natAbs)
    ∧ (1000 < (r.updated_at - l).natAbs →
        (∀ d ∈ (syncFilesModel libId lp rs locals store).1.downloads, d.2 ≠ joinPath lp r.path)
        ∧ joinPath lp r.path ∉ (syncFilesModel libId lp rs locals store).2) := by
  obtain ⟨pre, post, rfl⟩ := List.append_of_mem hr
  obtain ⟨hprepth, hpostpth⟩ := nodup_middle_ne (fun x => joinPath lp x.path) pre post r hpaths
  obtain ⟨hpreid, hpostid⟩ := nodup_middle_ne (fun x => mkConflictId libId x.id) pre post r hids
  set p := joinPath lp r.path with hp
  set cid := mkConflictId libId r.id with hcid
  have hfold : ∀ a : SyncAcc, (pre ++ r :: post).foldl (syncStep libId lp) a =
      post.foldl (syncStep libId lp) (syncStep libId lp (pre.foldl (syncStep libId lp) a) r) := by
    intro a
    rw [List.foldl_append, List.foldl_cons]
  set a0 : SyncAcc := ⟨locals, store, [], []⟩ with ha0
  set a1 := pre.foldl (syncStep libId lp) a0 with ha1
  obtain ⟨p1, p2, p3, p4⟩ := foldl_other_entries libId lp p cid pre a0 hprepth hpreid
  have ha1lookup : lookupMtime a1.locals p = some l := by rw [← ha1] at p1; rw [p1]; exact hl
  have ha1store : ∀ c ∈ a1.store, c.id ≠ cid := by
    intro c hc
    rcases p4 c (ha1 ▸ hc) with h | h
    · exact hstore c h
    · exact h
  have ha1dl : ∀ d ∈ a1.downloads, d.2 ≠ p := by
    intro d hd
    rcases p2 d (ha1 ▸ hd) with h | h
    · simp [ha0] at h
    · exact h
  have ha1added : ∀ c ∈ a1.added, c.localPath ≠ p := by
    intro c hc
    rcases p3 c (ha1 ▸ hc) with h | h
    · simp [ha0] at h
    · exact h
  simp only [syncFilesModel, hfold]
  by_cases hdiv : 1000 < (r.updated_at - l).natAbs
  · -- divergent: conflict added, no transfer
    have hany : (a1.store.any fun x => x.id == (mkBothConflict libId lp r l).id) = false := by
      rw [List.any_eq_false]
      intro c hc
      have := ha1store c hc
      simp [mkBothConflict]
      exact this
    have hstep : syncStep libId lp a1 r =
        { a1 with store := a1.store ++ [mkBothConflict libId lp r l],
                  added := a1.added ++ [mkBothConflict libId lp r l],
                  locals := eraseKey a1.locals p } := by
      rw [syncStep_some libId lp a1 r l ha1lookup, if_pos hdiv, hany]
      simp
    constructor
    · constructor
      · intro _
        exact hdiv
      · intro _
        rw [hstep]
        exact foldl_added_mono libId lp post _ _ (by simp)
    · intro _
      obtain ⟨q1, q2, q3, q4⟩ := foldl_other_entries libId lp p cid post
        (syncStep libId lp a1 r) hpostpth hpostid
      constructor
      · intro d hd
        rcases q2 d hd with h | h
        · rw [hstep] at h
          exact ha1dl d h
        · exact h
      · intro hmem
        have habs : p ∉ (syncStep libId lp a1 r).locals.map (fun e => e.1) := by
          rw [hstep]
          exact notMem_keys_eraseKey _ _
        have := foldl_keys_absent libId lp p post _ habs
        exact this (by simpa using hmem)
  · -- within tolerance: no conflict added for this file
    have hstep : syncStep libId lp a1 r = { a1 with locals := eraseKey a1.locals p } := by
      rw [syncStep_some libId lp a1 r l ha1lookup, if_neg hdiv]
    constructor
    · constructor
      · intro hmem
        obtain ⟨q1, q2, q3, q4⟩ := foldl_other_entries libId lp p cid post
          (syncStep libId lp a1 r) hpostpth hpostid
        rcases q3 _ hmem with h | h
        · rw [hstep] at h
          exact absurd rfl (ha1added _ h)
        · exact absurd rfl h
      · intro h
        exact absurd h hdiv
    · intro h
      exact absurd h hdiv

/-- Witness for C2 at a concrete divergent instance (L = 1000, R = 2001). -/
theorem conflict_threshold_witness :
    (lookupMtime [(["lib1", "a.txt"], 1000)]
        (joinPath ["lib1"] (⟨"f1", ["a.txt"], 2001⟩ : RemoteFile).path) = some 1000) ∧
    (((mkBothConflict "lib1" ["lib1"] ⟨"f1", ["a.txt"], 2001⟩ 1000 ∈
        (syncFilesModel "lib1" ["lib1"] [⟨"f1", ["a.txt"], 2001⟩]
          [(["lib1", "a.txt"], 1000)] []).1.added)
        ↔ 1000 < ((⟨"f1", ["a.txt"], 2001⟩ : RemoteFile).updated_at - 1000).natAbs)
    ∧ (1000 < ((⟨"f1", ["a.txt"], 2001⟩ : RemoteFile).updated_at - 1000).natAbs →
        (∀ d ∈ (syncFilesModel "lib1" ["lib1"] [⟨"f1", ["a.txt"], 2001⟩]
            [(["lib1", "a.txt"], 1000)] []).1.downloads,
          d.2 ≠ joinPath ["lib1"] (⟨"f1", ["a.txt"], 2001⟩ : RemoteFile).path)
        ∧ joinPath ["lib1"] (⟨"f1", ["a.txt"], 2001⟩ : RemoteFile).path ∉
            (syncFilesModel "lib1" ["lib1"] [⟨"f1", ["a.txt"], 2001⟩]
              [(["lib1", "a.txt"], 1000)] []).2)) :=
  ⟨by decide,
   conflict_threshold "lib1" ["lib1"] [⟨"f1", ["a.txt"], 2001⟩] [(["lib1", "a.txt"], 1000)]
     [] ⟨"f1", ["a.txt"], 2001⟩ 1000 (by decide) (by decide) (by decide) (by decide)
     (by intro c hc; cases hc)⟩

/-- C3 counterexample: one remote file `a.txt` with updated_at 0 and an empty local tree. The first pass downloads it, stamping the local copy with the download time 10000000; the immediately following second pass performs no transfers but records one new both_modified conflict, refuting the zero-new-conflicts part of the idempotence claim. -/
theorem reconcile_twice_counterexample :
    (runPass "lib1" ["lib1"] 10000001 0 (fun _ => "u")
      (runPass "lib1" ["lib1"] 10000000 0 (fun _ => "u")
        ⟨[], [⟨"f1", ["a.txt"], 0⟩], []⟩).world).downloads = []
    ∧ (runPass "lib1" ["lib1"] 10000001 0 (fun _ => "u")
      (runPass "lib1" ["lib1"] 10000000 0 (fun _ => "u")
        ⟨[], [⟨"f1", ["a.txt"], 0⟩], []⟩).world).uploads = []
    ∧ (runPass "lib1" ["lib1"] 10000001 0 (fun _ => "u")
      (runPass "lib1" ["lib1"] 10000000 0 (fun _ => "u")
        ⟨[], [⟨"f1", ["a.txt"], 0⟩], []⟩).world).added =
      [⟨"lib1-f1", ["lib1", "a.txt"], ["a.txt"], 10000000, 0, CType.both_modified⟩] := by
  decide

/-- C3 amended: over a world with distinct local keys, distinct remote paths and all local files under the library root, a second reconciliation pass right after a first performs zero downloads and zero uploads (new conflicts, however, can appear for files the first pass itself transferred, as the counterexample shows). -/
theorem second_pass_no_transfers
    (libId : String) (lp : Path) (tN tS tN2 tS2 : Int) (upId upId2 : Path → String)
    (w : World)
    (hkeys : (w.locals.map (fun e => e.1)).Nodup)
    (hrpaths : (w.remote.map (fun x => joinPath lp x.path)).Nodup)
    (hunder : ∀ e ∈ w.locals, ∃ rel, e.1 = lp ++ rel) :
    (runPass libId lp tN2 tS2 upId2 (runPass libId lp tN tS upId w).world).downloads = []
    ∧ (runPass libId lp tN2 tS2 upId2 (runPass libId lp tN tS upId w).world).uploads = [] := by
  set a0 : SyncAcc := ⟨w.locals, w.store, [], []⟩ with ha0
  set fold1 := w.remote.foldl (syncStep libId lp) a0 with hfold1
  set dl1 := fold1.downloads with hdl1
  set up1 := fold1.locals.map (fun e => e.1) with hup1
  have hw1 : (runPass libId lp tN tS upId w).world =
      { locals := w.locals ++ dl1.map (fun d => (d.2, tN)),
        remote := w.remote ++ up1.map (fun p => ⟨upId p, relPath lp p, tS⟩),
        store := fold1.store } := by
    simp only [runPass, syncFilesModel, ← ha0, ← hfold1, ← hdl1]
  set w1 := (runPass libId lp tN tS upId w).world with hw1def
  -- keys of the first-pass local tree
  have hkeys1 : w1.locals.map (fun e => e.1) =
      w.locals.map (fun e => e.1) ++ dl1.map (fun d => d.2) := by
    rw [hw1]
    simp [Function.comp]
  -- leftover upload paths are original local keys
  have hupsub : ∀ p ∈ up1, p ∈ w.locals.map (fun e => e.1) := by
    intro p hp
    obtain ⟨e, he, rfl⟩ := List.mem_map.1 hp
    have : e ∈ a0.locals := (foldl_locals_sublist libId lp w.remote a0).mem he
    exact List.mem_map_of_mem _ this
  have hupnodup : up1.Nodup := by
    have hsub : fold1.locals.Sublist a0.locals := foldl_locals_sublist libId lp w.remote a0
    exact (hsub.map (fun e => e.1)).nodup hkeys
  have hroundtrip : ∀ p ∈ up1, joinPath lp (relPath lp p) = p := by
    intro p hp
    obtain ⟨e, he, rfl⟩ := List.mem_map.1 hp
    obtain ⟨rel, hrel⟩ := hunder e ((foldl_locals_sublist libId lp w.remote a0).mem he)
    rw [hrel, joinPath_relPath]
  have hupnotremote : ∀ p ∈ up1, ∀ x ∈ w.remote, joinPath lp x.path ≠ p := by
    intro p hp x hx he
    have := foldl_processed_gone libId lp w.remote a0 x hx
    rw [← hfold1] at this
    exact this (he ▸ hp)
  -- (A) every remote entry of pass 2 has its path present locally
  have hpresent : ∀ x ∈ w1.remote, joinPath lp x.path ∈ w1.locals.map (fun e => e.1) := by
    intro x hx
    rw [hw1] at hx
    rw [hkeys1]
    rcases List.mem_append.1 hx with hx | hx
    · rcases foldl_entry_covered libId lp w.remote a0 x hx with h | h
      · exact List.mem_append.2 (Or.inl h)
      · refine List.mem_append.2 (Or.inr ?_)
        rw [hdl1, hfold1]
        exact h
    · obtain ⟨p, hp, rfl⟩ := List.mem_map.1 hx
      simp only []
      rw [hroundtrip p hp]
      exact List.mem_append.2 (Or.inl (hupsub p hp))
  -- (B) remote paths of pass 2 are nodup
  have hup_map_join : up1.map (fun p => joinPath lp (relPath lp p)) = up1 := by
    rw [List.map_congr_left hroundtrip]
    simp
  have hnd1 : (w1.remote.map (fun x => joinPath lp x.path)).Nodup := by
    rw [hw1]
    simp only [List.map_append, List.map_map]
    have h2 : (up1.map (fun p => ⟨upId p, relPath lp p, tS⟩ : Path → RemoteFile)).map
        (fun x => joinPath lp x.path) = up1 := by
      rw [List.map_map]
      exact hup_map_join
    rw [List.nodup_append]
    refine ⟨hrpaths, ?_, ?_⟩
    · have : ((fun x => joinPath lp x.path) ∘ (fun p => (⟨upId p, relPath lp p, tS⟩ : RemoteFile))) =
          fun p => joinPath lp (relPath lp p) := rfl
      rw [this, hup_map_join]
      exact hupnodup
    · intro q hq1 hq2
      obtain ⟨x, hx, rfl⟩ := List.mem_map.1 hq1
      have : ((fun x => joinPath lp x.path) ∘ (fun p => (⟨upId p, relPath lp p, tS⟩ : RemoteFile))) =
          fun p => joinPath lp (relPath lp p) := rfl
      rw [this, hup_map_join] at hq2
      exact hupnotremote _ hq2 x hx rfl
  -- pass 2: no downloads
  set b0 : SyncAcc := ⟨w1.locals, w1.store, [], []⟩ with hb0
  have hnodl : (w1.remote.foldl (syncStep libId lp) b0).downloads = [] := by
    rw [foldl_no_downloads libId lp w1.remote b0 (fun x hx => hpresent x hx) hnd1]
  -- pass 2: everything consumed, no uploads
  have hcov : ∀ q ∈ b0.locals.map (fun e => e.1), ∃ x ∈ w1.remote, joinPath lp x.path = q := by
    intro q hq
    rw [hb0] at hq
    rw [hkeys1] at hq
    rcases List.mem_append.1 hq with hq | hq
    · by_cases hex : ∃ x ∈ w.remote, joinPath lp x.path = q
      · obtain ⟨x, hx, he⟩ := hex
        exact ⟨x, by rw [hw1]; exact List.mem_append.2 (Or.inl hx), he⟩
      · push_neg at hex
        have hqup : q ∈ up1 := foldl_key_preserved libId lp w.remote a0 q hex hq
        refine ⟨⟨upId q, relPath lp q, tS⟩, ?_, ?_⟩
        · rw [hw1]
          exact List.mem_append.2 (Or.inr (List.mem_map_of_mem _ hqup))
        · exact hroundtrip q hqup
    · obtain ⟨d, hd, rfl⟩ := List.mem_map.1 hq
      rcases foldl_downloads_from libId lp w.remote a0 d (hfold1 ▸ hd) with h | h
      · simp [ha0] at h
      · obtain ⟨x, hx, he⟩ := h
        exact ⟨x, by rw [hw1]; exact List.mem_append.2 (Or.inl hx), he.symm⟩
  have hnoup : (w1.remote.foldl (syncStep libId lp) b0).locals = [] :=
    foldl_locals_consumed libId lp w1.remote b0 hcov
  constructor
  · show (syncFilesModel libId lp w1.remote w1.locals w1.store).1.downloads = []
    simpa [syncFilesModel, ← hb0] using hnodl
  · show ((syncFilesModel libId lp w1.remote w1.locals w1.store).1.locals.map (fun e => e.1)) = []
    simp [syncFilesModel, ← hb0, hnoup]

/-- Witness for the amended C3 at a concrete world with one remote and one unrelated local file. -/
theorem second_pass_no_transfers_witness :
    ((([(["lib1", "b.txt"], 5)] : Snapshot).map (fun e => e.1)).Nodup) ∧
    (runPass "lib1" ["lib1"] 20 30 (fun _ => "u")
      (runPass "lib1" ["lib1"] 10 15 (fun _ => "u")
        ⟨[(["lib1", "b.txt"], 5)], [⟨"f1", ["a.txt"], 0⟩], []⟩).world).downloads = []
    ∧ (runPass "lib1" ["lib1"] 20 30 (fun _ => "u")
      (runPass "lib1" ["lib1"] 10 15 (fun _ => "u")
        ⟨[(["lib1", "b.txt"], 5)], [⟨"f1", ["a.txt"], 0⟩], []⟩).world).uploads = [] := by
  have h := second_pass_no_transfers "lib1" ["lib1"] 10 15 20 30 (fun _ => "u") (fun _ => "u")
    ⟨[(["lib1", "b.txt"], 5)], [⟨"f1", ["a.txt"], 0⟩], []⟩
    (by decide) (by decide)
    (by
      intro e he
      refine ⟨[(e.1).getLast?.getD ""], ?_⟩
      have : e = ((["lib1", "b.txt"], 5) : Path × Int) := by
        simpa using he
      rw [this]
      rfl)
  exact ⟨by decide, h.1, h.2⟩

/-- C4: evaluating the code at the failing input. Resolving an existing conflict with keep_both renames the local file to report_local_777.txt and then throws the temporal-dead-zone ReferenceError on `parts`: the remote version is never downloaded, the original path is left with no file at all, and the conflict record is not deleted - contradicting the claimed two-file outcome. -/
theorem keep_both_reference_error :
    resolveConflict (fun _ => "REMOTE")
      ⟨[⟨"lib1-f1", ["lib1", "report.txt"], ["report.txt"], 5000, 0, CType.both_modified⟩],
       [(["lib1", "report.txt"], "LOCAL")], []⟩
      "lib1-f1" "keep_both" 777 =
    (⟨[⟨"lib1-f1", ["lib1", "report.txt"], ["report.txt"], 5000, 0, CType.both_modified⟩],
      [(["lib1", "report_local_777.txt"], "LOCAL")], []⟩,
     some (JsError.referenceError "parts")) := by
  decide

/-- C5: evaluating the code at the failing input. Resolving an existing conflict with keep_remote throws the temporal-dead-zone ReferenceError on `parts` before any download: the local file and the conflict store are left untouched and the record is not deleted. -/
theorem keep_remote_reference_error :
    resolveConflict (fun _ => "REMOTE")
      ⟨[⟨"lib1-f1", ["lib1", "report.txt"], ["report.txt"], 5000, 0, CType.both_modified⟩],
       [(["lib1", "report.txt"], "LOCAL")], []⟩
      "lib1-f1" "keep_remote" 777 =
    (⟨[⟨"lib1-f1", ["lib1", "report.txt"], ["report.txt"], 5000, 0, CType.both_modified⟩],
      [(["lib1", "report.txt"], "LOCAL")], []⟩,
     some (JsError.referenceError "parts")) := by
  decide

/-- C6 counterexample: two pending items, dispatch succeeding, and a pause() delivered at the await boundary before the second loop iteration. The drain nevertheless starts the second item (its pending to syncing transition appears in the trace after the pause), because the while loop never re-checks isPaused; only the entry guard does. -/
theorem pause_midloop_counterexample :
    processQueue (fun _ => true) [false, true]
      { queue := [⟨"i1", ["a"], EvType.add, 0, 0, QStatus.pending⟩,
                  ⟨"i2", ["b"], EvType.add, 1, 0, QStatus.pending⟩],
        isPaused := false, isProcessing := false, errorItems := 0 } =
    ({ queue := [], isPaused := true, isProcessing := false, errorItems := 0 },
     [("i1", QStatus.syncing), ("i1", QStatus.completed),
      ("i2", QStatus.syncing), ("i2", QStatus.completed)]) := by
  decide

/-- C6 amended: after pause() sets the flag, a processQueue call starts no work at all - the entry guard returns immediately, whatever the queue holds; a drain already in progress, however, keeps starting pending items (see the counterexample). -/
theorem pause_blocks_new_drain (d : QItem → Bool) (pauses : List Bool) (st : WState) :
    processQueue d pauses (pauseService st) = (pauseService st, []) := by
  rw [processQueue, if_pos (by simp [pauseService])]

/-- C7 counterexample: a library tree holding a .DS_Store file. The reconciliation scan getLocalFiles returns it even though it matches the watcher ignore patterns, refuting the claim that the scan excludes ignored files. -/
theorem scan_includes_ignored :
    (["lib1", ".DS_Store"], (0 : Int)) ∈
      walkEntry [] (FsEntry.dir "lib1" [FsEntry.file ".DS_Store" 0, FsEntry.file "a.txt" 5])
    ∧ isIgnored ["lib1", ".DS_Store"] = true := by
  decide

/-- C7 amended: the reconciliation scan applies no filter whatsoever - every file entry of the walked tree appears in the snapshot, ignore patterns notwithstanding; the ignore globs configure only the chokidar watcher. -/
theorem scan_includes_every_file (cwd : Path) (name : String) (mt : Int)
    (pre post : List FsEntry) :
    (cwd ++ [name], mt) ∈ walkEntries cwd (pre ++ FsEntry.file name mt :: post) := by
  induction pre with
  | nil =>
    rw [List.nil_append, walkEntries, walkEntry]
    simp
  | cons e es ih =>
    rw [List.cons_append, walkEntries]
    exact List.mem_append.2 (Or.inr ih)

/-- C8: enqueue appends the fresh pending item at the tail of the queue, and each drain iteration selects the first pending item in queue order - the pending item that was enqueued earliest, every earlier item in the queue being non-pending. -/
theorem queue_fifo_order :
    (∀ (st : WState) (fp : Path) (ev : EvType) (now : Int) (rnd : String),
      (queueSyncPush st fp ev now rnd).queue =
        st.queue ++ [⟨toString now ++ "-" ++ rnd, fp, ev, now, 0, QStatus.pending⟩]) ∧
    (∀ (q : List QItem) (it : QItem), selectPending q = some it →
      it.status = QStatus.pending ∧
      ∃ pre post, q = pre ++ it :: post ∧ ∀ x ∈ pre, x.status ≠ QStatus.pending) := by
  constructor
  · intro st fp ev now rnd
    rfl
  · intro q it h
    rw [selectPending, List.find?_eq_some] at h
    obtain ⟨hp, pre, post, hq, hpre⟩ := h
    exact ⟨by simpa using hp, pre, post, hq, fun x hx => by simpa using hpre x hx⟩

/-- Witness for C8 on a queue whose first item is in error state and whose second is pending. -/
theorem queue_fifo_order_witness :
    selectPending [⟨"a", ["x"], EvType.add, 0, 1, QStatus.error⟩,
                   ⟨"b", ["y"], EvType.add, 1, 0, QStatus.pending⟩] =
      some ⟨"b", ["y"], EvType.add, 1, 0, QStatus.pending⟩ ∧
    ((⟨"b", ["y"], EvType.add, 1, 0, QStatus.pending⟩ : QItem).status = QStatus.pending ∧
      ∃ pre post,
        [⟨"a", ["x"], EvType.add, 0, 1, QStatus.error⟩,
         (⟨"b", ["y"], EvType.add, 1, 0, QStatus.pending⟩ : QItem)] =
          pre ++ ⟨"b", ["y"], EvType.add, 1, 0, QStatus.pending⟩ :: post ∧
        ∀ x ∈ pre, x.status ≠ QStatus.pending) :=
  ⟨by decide, queue_fifo_order.2 _ _ (by decide)⟩

/-- C9: with a positive chunk size, the upload loop produces parts with 1-based consecutive part numbers whose byte ranges are nonempty, lie inside the file, and cover every byte below the size exactly once (no gaps, no overlaps); in particular a 10 MB file with 4 MB chunks yields 3 chunks. -/
theorem chunk_math (s c : Nat) (hc : 0 < c) :
    ((uploadChunks s c).map (fun pr => pr.1) =
      (List.range (totalChunksSpec s c)).map (fun i => i + 1))
    ∧ (∀ pr ∈ uploadChunks s c, pr.2.1 < pr.2.2 ∧ pr.2.2 ≤ s)
    ∧ (∀ b, b < s → ∃! pr, pr ∈ uploadChunks s c ∧ pr.2.1 ≤ b ∧ b < pr.2.2)
    ∧ totalChunksSpec 10000000 4000000 = 3 := by
  have hmul : ∀ i, i < totalChunksSpec s c → i * c < s := by
    intro i hi
    have h1 : (i + 1) * c ≤ ((s + c - 1) / c) * c :=
      Nat.mul_le_mul_right c (by exact hi)
    have h2 : ((s + c - 1) / c) * c ≤ s + c - 1 := Nat.div_mul_le_self _ _
    have h3 : i * c + c ≤ s + c - 1 := by
      calc i * c + c = (i + 1) * c := by ring
      _ ≤ s + c - 1 := le_trans h1 h2
    omega
  refine ⟨?_, ?_, ?_, ?_⟩
  · simp [uploadChunks]
  · intro pr hpr
    obtain ⟨i, hi, rfl⟩ := List.mem_map.1 hpr
    rw [List.mem_range] at hi
    dsimp only
    exact ⟨lt_min (Nat.lt_add_of_pos_right hc) (hmul i hi), min_le_right _ _⟩
  · intro b hb
    have hn : b / c < totalChunksSpec s c := by
      have hs : 1 ≤ s := by omega
      have h1 : b / c ≤ (s - 1) / c := Nat.div_le_div_right (by omega)
      have h2 : (s - 1 + c) / c = (s - 1) / c + 1 := Nat.add_div_right _ hc
      have h3 : s + c - 1 = s - 1 + c := by omega
      rw [totalChunksSpec, h3, h2]
      omega
    have hdm2 : (b / c) * c + b % c = b := by rw [Nat.mul_comm]; exact Nat.div_add_mod b c
    have hmod := Nat.mod_lt b hc
    refine ⟨(b / c + 1, (b / c) * c, min ((b / c) * c + c) s), ?_, ?_⟩
    · refine ⟨List.mem_map.2 ⟨b / c, List.mem_range.2 hn, rfl⟩, ?_, ?_⟩
      · dsimp only
        omega
      · dsimp only
        exact lt_min (by omega) hb
    · rintro ⟨j1, j2, j3⟩ ⟨hmem, hle, hlt⟩
      obtain ⟨j, hj, he⟩ := List.mem_map.1 hmem
      injection he with h1 h23
      injection h23 with h2 h3
      subst h1
      subst h2
      subst h3
      dsimp only at hle hlt
      have hub : b < j * c + c := lt_of_lt_of_le hlt (min_le_left _ _)
      have hdiv : b / c = j :=
        Nat.div_eq_of_lt_le hle (by rw [Nat.add_mul, Nat.one_mul]; exact hub)
      rw [hdiv]
  · norm_num [totalChunksSpec]

/-- Witness for C9 at the spec instance: 10 MB file, 4 MB chunks. -/
theorem chunk_math_witness :
    (0 < 4000000)
    ∧ (((uploadChunks 10000000 4000000).map (fun pr => pr.1) =
        (List.range (totalChunksSpec 10000000 4000000)).map (fun i => i + 1))
      ∧ (∀ pr ∈ uploadChunks 10000000 4000000, pr.2.1 < pr.2.2 ∧ pr.2.2 ≤ 10000000)
      ∧ (∀ b, b < 10000000 →
          ∃! pr, pr ∈ uploadChunks 10000000 4000000 ∧ pr.2.1 ≤ b ∧ b < pr.2.2)
      ∧ totalChunksSpec 10000000 4000000 = 3) :=
  ⟨by norm_num, chunk_math 10000000 4000000 (by norm_num)⟩

/-- C10: resolving a conflict id that is not in the store returns normally and changes nothing: no upload, no download, no rename, and the store is untouched. -/
theorem resolve_unknown_id_noop (remote : String → String) (st : RState)
    (cid res : String) (now : Int) (h : ∀ c ∈ st.conflicts, c.id ≠ cid) :
    resolveConflict remote st cid res now = (st, none) := by
  have hfind : st.conflicts.find? (fun c => c.id == cid) = none :=
    List.find?_eq_none.2 (fun c hc => by simpa using h c hc)
  simp only [resolveConflict, hfind]

/-- Witness for C10 with a store holding one conflict and a lookup of a different id. -/
theorem resolve_unknown_id_noop_witness :
    (∀ c ∈ ([⟨"lib1-f1", ["lib1", "a.txt"], ["a.txt"], 0, 0, CType.both_modified⟩] : List Conflict),
      c.id ≠ "lib1-f9") ∧
    resolveConflict (fun _ => "R")
      ⟨[⟨"lib1-f1", ["lib1", "a.txt"], ["a.txt"], 0, 0, CType.both_modified⟩], [], []⟩
      "lib1-f9" "keep_remote" 0 =
    (⟨[⟨"lib1-f1", ["lib1", "a.txt"], ["a.txt"], 0, 0, CType.both_modified⟩], [], []⟩, none) :=
  ⟨by decide, resolve_unknown_id_noop _ _ _ _ _ (by decide)⟩

end Beacon
